import Mathlib

/-!
Verification of the BioProv execution-and-provenance core.

The repository's tutorials exercise the library `bioprov` (entity model,
command builder, execution engine, preset layer, workflow orchestrator).
The library implementation itself is not part of the source tree checked
here, so every definition below is a shallow embedding modelled from the
specification's description of that core, with the tutorials fixing the
intended call behaviour.  Mappings (`tag → File`, name → Program,
run-id → Run, sample-id → Sample) are association lists preserving
insertion order, with Python-dict update semantics (replace in place on
an existing key, append on a fresh key).  Filesystem paths are
structured as a directory plus a base name, mirroring the path objects
the tutorials use (`File.directory`, `joinpath`).  The external world
(process spawning, wall-clock timestamps) enters as explicit data: a
`ProcOutcome` says how the attempted child process behaved, and
`RunTimes` carries the observed start/end timestamps verbatim.
-/

namespace BioProv

/-! ### Association-list maps with Python-dict update semantics -/

/-- Modelled from the spec: the entity mappings ("mapping of tag → File",
"mapping of run-id → Run", …) are insertion-ordered dictionaries.
`lookupA` is dictionary lookup. -/
def lookupA {α : Type} : List (String × α) → String → Option α
  | [], _ => none
  | (k, v) :: rest, t => if k = t then some v else lookupA rest t

/-- Modelled from the spec: dictionary assignment `d[k] = v` — replaces the
value in place when the key exists, appends a fresh entry otherwise. -/
def updateA {α : Type} : List (String × α) → String → α → List (String × α)
  | [], k, v => [(k, v)]
  | (k', v') :: rest, k, v =>
      if k' = k then (k, v) :: rest else (k', v') :: updateA rest k v

/-! ### Entity model -/

/-- Modelled from the spec: a filesystem path, as the tutorials use it
(`pathlib`-style): a directory plus a base name; `File.directory` reads the
directory component and `joinpath` appends a base name. -/
structure FPath where
  dir : String
  base : String
deriving DecidableEq, Repr

/-- Render a path as the string handed to the shell (`str(file)`). -/
def FPath.render (p : FPath) : String := p.dir ++ "/" ++ p.base

/-- Modelled from the spec: a File is "a filesystem path plus a tag";
the sequence-file variant is distinguished by its kind. -/
inductive FileKind where
  | plain
  | seqFile
deriving DecidableEq, Repr

structure File where
  path : FPath
  tag : Option String
  kind : FileKind
deriving DecidableEq, Repr

/-- Modelled from the spec: a Parameter is "a key and an optional value
(value may be absent for bare flags)". -/
structure Parameter where
  key : String
  value : Option String
deriving DecidableEq, Repr

/-- Modelled from the spec: a Run's status records the exit of the external
process — a completed process with its exit status, or a timeout. -/
inductive RunStatus where
  | completed (exit : Nat)
  | timedOut
deriving DecidableEq, Repr

/-- A status counts as a failure when the process exited non-zero or
timed out. -/
def RunStatus.isFailure : RunStatus → Bool
  | .completed e => e ≠ 0
  | .timedOut => true

/-- Modelled from the spec: a Run records "start timestamp, end timestamp,
exit status, captured standard output, captured standard error"; its
identifier is the key it is stored under in the Program's run mapping. -/
structure Run where
  start : String
  finish : String
  status : RunStatus
  stdout : String
  stderr : String
deriving DecidableEq, Repr

/-- Modelled from the spec: a Program is "an external command with a name,
an ordered sequence of Parameters, and a mapping of run-id → Run". -/
structure Program where
  name : String
  params : List Parameter
  runs : List (String × Run)
deriving DecidableEq, Repr

/-- Modelled from the spec: a Sample has an identifier, an attribute bag,
a mapping of tag → File and a mapping of name → Program. -/
structure Sample where
  identifier : String
  attributes : List (String × String)
  files : List (String × File)
  programs : List (String × Program)
deriving DecidableEq, Repr

/-- Modelled from the spec: a Project is a named, taggable collection of
Samples keyed by sample identifier. -/
structure Project where
  tag : String
  attributes : List (String × String)
  samples : List (String × Sample)
deriving DecidableEq, Repr

/-! ### Command builder (§4.1) -/

/-- Modelled from the spec: a Parameter "renders to one or two command-line
tokens": a bare key renders to the key, a key with a value to
`key value`, both verbatim. -/
def Parameter.render (p : Parameter) : String :=
  match p.value with
  | none => p.key
  | some v => p.key ++ " " ++ v

/-- Modelled from the spec: the command builder walks the ordered
Parameters, extending the command text with one rendered parameter at a
time (the accumulator starts as the program name). -/
def genCmd (acc : String) : List Parameter → String
  | [] => acc
  | p :: ps => genCmd (acc ++ " " ++ p.render) ps

/-- Modelled from the spec: `Program.cmd`, "the fully materialized command
string". -/
def Program.cmd (p : Program) : String := genCmd p.name p.params

/-- The spec's stated form of the command: the name followed by each
Parameter's rendering, space-joined, in append order. -/
def joinSp : List String → String
  | [] => ""
  | [x] => x
  | x :: y :: rest => x ++ " " ++ joinSp (y :: rest)

/-! ### Execution engine (§4.2) -/

/-- Behaviour of the attempted child process, supplied by the environment:
it completed with an exit status (capturing stdout/stderr), it was aborted
by a caller-supplied timeout, or it could not be spawned at all
(engine-level fault). -/
inductive ProcOutcome where
  | completed (exit : Nat) (out err : String)
  | timedOut (out err : String)
  | spawnFault (msg : String)
deriving DecidableEq, Repr

/-- An outcome is an engine-level fault when the process could not be
spawned at all. -/
def ProcOutcome.isFault : ProcOutcome → Bool
  | .spawnFault _ => true
  | _ => false

/-- The captured standard output of a non-fault outcome. -/
def ProcOutcome.outOf : ProcOutcome → String
  | .completed _ o _ => o
  | .timedOut o _ => o
  | .spawnFault _ => ""

/-- The captured standard error of a non-fault outcome. -/
def ProcOutcome.errOf : ProcOutcome → String
  | .completed _ _ e => e
  | .timedOut _ e => e
  | .spawnFault _ => ""

/-- An outcome the spec classifies as an execution failure: a non-zero
exit status or a timeout. -/
def ProcOutcome.isFailing : ProcOutcome → Bool
  | .completed e _ _ => e ≠ 0
  | .timedOut _ _ => true
  | .spawnFault _ => false

/-- Wall-clock start/end timestamps observed for one invocation, recorded
verbatim. -/
structure RunTimes where
  start : String
  finish : String
deriving DecidableEq, Repr

/-- Engine-level error surfaced to the caller (command not found,
cannot fork). -/
inductive EngineError where
  | spawnFault (msg : String)
deriving DecidableEq, Repr

/-- Modelled from the spec: the Execution Engine's `run` on a Program.
It builds the command, spawns it (the environment answers with a
`ProcOutcome`), captures timing/exit/stdout/stderr into a new Run, stores
the Run under the next identifier `len(existing runs) + 1` as a string in
the Program's run mapping, and returns the mutated Program with the
created Run.  Only an engine-level fault surfaces as an error. -/
def Program.runOn (p : Program) (oc : ProcOutcome) (ts : RunTimes) :
    Except EngineError (Program × Run) :=
  match oc with
  | .spawnFault m => .error (.spawnFault m)
  | .completed e out err =>
      let r : Run :=
        { start := ts.start, finish := ts.finish, status := .completed e
          stdout := out, stderr := err }
      .ok ({ p with runs := p.runs ++ [(toString (p.runs.length + 1), r)] }, r)
  | .timedOut out err =>
      let r : Run :=
        { start := ts.start, finish := ts.finish, status := .timedOut
          stdout := out, stderr := err }
      .ok ({ p with runs := p.runs ++ [(toString (p.runs.length + 1), r)] }, r)

/-- Repeated invocation of the engine on the same Program: each non-fault
outcome records a Run; an engine-level fault aborts that single unit of
work and records nothing. -/
def Program.runMany (p : Program) : List (ProcOutcome × RunTimes) → Program
  | [] => p
  | (oc, ts) :: rest =>
      match p.runOn oc ts with
      | .error _ => p.runMany rest
      | .ok (p', _) => p'.runMany rest

/-! ### Sample mutation -/

/-- Modelled from the spec: `Sample.add_programs` stores the Program in the
sample's program mapping under the program's name. -/
def Sample.addPrograms (s : Sample) (p : Program) : Sample :=
  { s with programs := updateA s.programs p.name p }

/-- Modelled from the spec: `Sample.add_files` stores the File in the
sample's tag → File mapping under the file's tag (the file's base name
standing in when no tag was given), keeping the stored file's tag equal to
its key as the data model requires. -/
def Sample.addFiles (s : Sample) (f : File) : Sample :=
  match f.tag with
  | some t => { s with files := updateA s.files t f }
  | none => { s with files := updateA s.files f.path.base { f with tag := some f.path.base } }

/-- Modelled from the spec: direct dictionary assignment
`sample.files[t] = file`.  The data model defines `Sample.files` as "a
mapping of tag → File" with the key naming the file's logical role, so
storing a file under key `t` gives it the tag `t`; the tutorial states this
route is the same as `add_files` with that tag. -/
def Sample.assignFile (s : Sample) (t : String) (f : File) : Sample :=
  { s with files := updateA s.files t { f with tag := some t } }

/-! ### Preset layer (§4.3) -/

/-- Modelled from the spec: a PresetProgram declares a program name, fixed
parameters (construction order), input-file bindings `flag → tag`,
output-file bindings `flag → (tag, suffix)` and free-standing extra
flags. -/
structure PresetProgram where
  name : String
  params : List Parameter
  inputFiles : List (String × String)
  outputFiles : List (String × String × String)
  extraFlags : List String
deriving DecidableEq, Repr

/-- Resolution error: a declared required input tag is absent from the
sample's files. -/
inductive ResolveError where
  | missingInput (tag : String)
deriving DecidableEq, Repr

/-- Modelled from the spec: resolve each input-file binding `{flag: tag}`
by looking `tag` up in the sample's files; fail with a "missing required
input file" condition on the first absent tag. -/
def resolveInputs (inputs : List (String × String)) (files : List (String × File)) :
    Except ResolveError (List (String × File)) :=
  match inputs with
  | [] => .ok []
  | (fl, t) :: rest =>
      match lookupA files t with
      | none => .error (.missingInput t)
      | some f =>
          match resolveInputs rest files with
          | .error e => .error e
          | .ok rs => .ok ((fl, f) :: rs)

/-- Directory for new output files: the directory of the first resolved
input file, or the sample-local default. -/
def firstInputDir (resolved : List (String × File)) : String :=
  match resolved with
  | [] => "."
  | (_, f) :: _ => f.path.dir

/-- Modelled from the spec: the File registered for an output binding —
path = output directory joined with `{sample.identifier}{suffix}`, carrying
the binding's tag. -/
def outFile (d ident t suf : String) : File :=
  { path := { dir := d, base := ident ++ suf }, tag := some t, kind := .plain }

/-- Modelled from the spec: the run history already recorded on a sample
under a program name — re-resolving the same preset regenerates "the same
Program", so the Run ids must continue from it (a re-run appends Run "2"
rather than replacing Run "1"). -/
def prevRuns (s : Sample) (nm : String) : List (String × Run) :=
  match lookupA s.programs nm with
  | some prev => prev.runs
  | none => []

/-- Modelled from the spec: `PresetProgram` resolution against a Sample —
resolve the inputs (failing fast on a missing tag), register one new File
per output binding into `sample.files` (last write wins on a repeated
tag), materialize the Program with Parameters ordered fixed → inputs →
outputs → extra flags (keeping the run history already recorded under the
program's name on this sample), and bind the Program to the sample. -/
def PresetProgram.resolve (pp : PresetProgram) (s : Sample) :
    Except ResolveError (Sample × Program) :=
  match resolveInputs pp.inputFiles s.files with
  | .error e => .error e
  | .ok resolved =>
      let d := firstInputDir resolved
      let outs : List (String × String × File) :=
        pp.outputFiles.map (fun b => (b.1, b.2.1, outFile d s.identifier b.2.1 b.2.2))
      let files' := outs.foldl (fun fs b => updateA fs b.2.1 b.2.2) s.files
      let prog : Program :=
        { name := pp.name
          params := pp.params
            ++ resolved.map (fun b => { key := b.1, value := some b.2.path.render })
            ++ outs.map (fun b => { key := b.1, value := some b.2.2.path.render })
            ++ pp.extraFlags.map (fun fl => { key := fl, value := none })
          runs := prevRuns s pp.name }
      .ok ({ s with files := files', programs := updateA s.programs prog.name prog },
           prog)

/-- Outcome of driving one Step for one Sample. -/
inductive StepResult where
  | resolveFailed (e : ResolveError)
  | spawnFailed (e : EngineError)
  | ran (st : RunStatus)
deriving DecidableEq, Repr

/-- Modelled from the spec: running a PresetProgram's Step for one Sample —
resolve, then execute (§4.2); a resolution error aborts before any process
is spawned and leaves the sample unchanged; an engine fault aborts that
sample's unit of work; otherwise the created Run is recorded on the
sample's copy of the Program. -/
def stepOnSample (pp : PresetProgram) (oc : ProcOutcome) (ts : RunTimes) (s : Sample) :
    Sample × StepResult :=
  match pp.resolve s with
  | .error e => (s, .resolveFailed e)
  | .ok (s', prog) =>
      match prog.runOn oc ts with
      | .error e => (s', .spawnFailed e)
      | .ok (prog', r) => (s'.addPrograms prog', .ran r.status)

/-! Last-write-wins semantics of the output-file registration fold. -/

/-- The last File written for a tag by a list of (flag, tag, File)
registrations. -/
def lastWriteF : List (String × String × File) → String → Option File
  | [], _ => none
  | b :: rest, t =>
      match lastWriteF rest t with
      | some f => some f
      | none => if b.2.1 = t then some b.2.2 else none

/-- The last output binding for a tag: its flag and suffix. -/
def lastOut : List (String × String × String) → String → Option (String × String)
  | [], _ => none
  | b :: rest, t =>
      match lastOut rest t with
      | some r => some r
      | none => if b.2.1 = t then some (b.1, b.2.2) else none

/-! ### Serialization boundary (§6)

The persisted project document: a structured document with top-level keys
for project tag, attributes and a mapping of sample-identifier → sample
document; each sample document nests its attributes, file mapping
(tag → \x7bpath, type\x7d) and program mapping (key → \x7bname, parameters,
runs\x7d).  The JSON codec itself is an out-of-scope external collaborator;
the document here is the abstract mapping it persists. -/

inductive StatusDoc where
  | exited (code : Nat)
  | timedOut
deriving DecidableEq, Repr

structure RunDoc where
  start : String
  finish : String
  status : StatusDoc
  stdout : String
  stderr : String
deriving DecidableEq, Repr

structure ParamDoc where
  key : String
  value : Option String
deriving DecidableEq, Repr

structure FileDoc where
  path : FPath
  ftype : String
deriving DecidableEq, Repr

structure ProgramDoc where
  name : String
  parameters : List ParamDoc
  runs : List (String × RunDoc)
deriving DecidableEq, Repr

structure SampleDoc where
  attributes : List (String × String)
  files : List (String × FileDoc)
  programs : List (String × ProgramDoc)
deriving DecidableEq, Repr

structure ProjectDoc where
  tag : String
  attributes : List (String × String)
  samples : List (String × SampleDoc)
deriving DecidableEq, Repr

/-- Modelled from the spec: serialization of a Run — timestamps written
verbatim. -/
def serRun (r : Run) : RunDoc :=
  { start := r.start, finish := r.finish
    status := match r.status with
      | .completed e => .exited e
      | .timedOut => .timedOut
    stdout := r.stdout, stderr := r.stderr }

def serParam (p : Parameter) : ParamDoc :=
  { key := p.key, value := p.value }

def serFile (f : File) : FileDoc :=
  { path := f.path
    ftype := match f.kind with
      | .plain => "file"
      | .seqFile => "seqfile" }

def serProgram (p : Program) : ProgramDoc :=
  { name := p.name
    parameters := p.params.map serParam
    runs := p.runs.map (fun e => (e.1, serRun e.2)) }

def serSample (s : Sample) : SampleDoc :=
  { attributes := s.attributes
    files := s.files.map (fun e => (e.1, serFile e.2))
    programs := s.programs.map (fun e => (e.1, serProgram e.2)) }

/-- Modelled from the spec: `Project.to_json`'s document — the whole entity
graph serialized as one unit. -/
def serProject (p : Project) : ProjectDoc :=
  { tag := p.tag, attributes := p.attributes
    samples := p.samples.map (fun e => (e.1, serSample e.2)) }

/-- Deserialization errors: malformed or schema-incompatible documents fail
on load with a descriptive error naming the offending field. -/
inductive SerError where
  | unknownFileType (tag ftype : String)
  | duplicateSample (ident : String)
deriving DecidableEq, Repr

def deRun (r : RunDoc) : Run :=
  { start := r.start, finish := r.finish
    status := match r.status with
      | .exited e => .completed e
      | .timedOut => .timedOut
    stdout := r.stdout, stderr := r.stderr }

def deParam (p : ParamDoc) : Parameter :=
  { key := p.key, value := p.value }

def deFile (t : String) (fd : FileDoc) : Except SerError File :=
  match fd.ftype with
  | "file" => .ok { path := fd.path, tag := some t, kind := .plain }
  | "seqfile" => .ok { path := fd.path, tag := some t, kind := .seqFile }
  | other => .error (.unknownFileType t other)

def deProgram (pd : ProgramDoc) : Program :=
  { name := pd.name
    params := pd.parameters.map deParam
    runs := pd.runs.map (fun e => (e.1, deRun e.2)) }

/-- Keyed traversal of a document mapping in the `Except` monad. -/
def travA {β γ : Type} (f : String → β → Except SerError γ) :
    List (String × β) → Except SerError (List (String × γ))
  | [] => .ok []
  | (k, b) :: rest =>
      match f k b with
      | .error e => .error e
      | .ok c =>
          match travA f rest with
          | .error e => .error e
          | .ok cs => .ok ((k, c) :: cs)

def deSample (ident : String) (sd : SampleDoc) : Except SerError Sample :=
  match travA deFile sd.files with
  | .error e => .error e
  | .ok files =>
      .ok { identifier := ident, attributes := sd.attributes, files := files
            programs := sd.programs.map (fun e => (e.1, deProgram e.2)) }

/-- The first duplicated key of a document mapping, if any. -/
def firstDup : List String → Option String
  | [] => none
  | x :: rest => if rest.contains x then some x else firstDup rest

/-- Modelled from the spec: `from_json` — rebuild the Project from the
persisted document, failing on a schema violation (unknown file type,
duplicate sample identifier) rather than silently producing a partial
graph. -/
def deProject (d : ProjectDoc) : Except SerError Project :=
  match firstDup (d.samples.map Prod.fst) with
  | some i => .error (.duplicateSample i)
  | none =>
      match travA deSample d.samples with
      | .error e => .error e
      | .ok samples => .ok { tag := d.tag, attributes := d.attributes, samples := samples }

/-- Well-formedness of the entity graph: sample identifiers are the keys
they are stored under and are unique, and each stored File's tag is the key
it is stored under. -/
def Sample.filesWF (s : Sample) : Prop :=
  ∀ e ∈ s.files, (e.2).tag = some e.1

def Project.WF (p : Project) : Prop :=
  firstDup (p.samples.map Prod.fst) = none ∧
    ∀ e ∈ p.samples, (e.2).identifier = e.1 ∧ Sample.filesWF e.2

instance (s : Sample) : Decidable s.filesWF := by
  unfold Sample.filesWF
  infer_instance

instance (p : Project) : Decidable p.WF := by
  unfold Project.WF
  infer_instance

/-! ### Workflow / Step orchestrator (§4.4) -/

/-- Modelled from the spec: a Step wraps a PresetProgram generator and a
default-enabled flag; at run time the preset is regenerated bound to each
Sample (resolution takes the sample explicitly here). -/
structure Step where
  preset : PresetProgram
  enabledByDefault : Bool
deriving DecidableEq, Repr

/-- Modelled from the spec: a Workflow owns an ordered mapping of
step-name → Step (keyed by the step's underlying program name) and a
Project. -/
structure Workflow where
  steps : List (String × Step)
  proj : Project
deriving DecidableEq, Repr

inductive WorkflowError where
  | duplicateStep (name : String)
deriving DecidableEq, Repr

/-- Modelled from the spec: `add_step` appends to the ordered step mapping
keyed by the step's underlying program name; duplicate step names are
rejected. -/
def Workflow.addStep (w : Workflow) (st : Step) : Except WorkflowError Workflow :=
  if (w.steps.map Prod.fst).contains st.preset.name then
    .error (.duplicateStep st.preset.name)
  else
    .ok { w with steps := w.steps ++ [(st.preset.name, st)] }

/-- Modelled from the spec: one step executed over every Sample of the
Project, in the Project's sample-insertion order; each sample's mutations
stay isolated to that sample, and the per-sample results are collected
regardless of individual failures.  `env` answers, per sample identifier,
how the external process behaved. -/
def runStepProject (pp : PresetProgram) (env : String → ProcOutcome × RunTimes)
    (proj : Project) : Project × List (String × StepResult) :=
  ({ proj with
      samples := proj.samples.map
        (fun e => (e.1, (stepOnSample pp (env e.1).1 (env e.1).2 e.2).1)) },
   proj.samples.map
     (fun e => (e.1, (stepOnSample pp (env e.1).1 (env e.1).2 e.2).2)))

/-- One fold step of `run_steps`: execute the step over the whole Project
when its name is requested, otherwise skip it. -/
def runStepsF (names : List String) (env : String → String → ProcOutcome × RunTimes)
    (acc : Project × List (String × String × StepResult)) (st : String × Step) :
    Project × List (String × String × StepResult) :=
  if names.contains st.1 then
    let res := runStepProject st.2.preset (env st.1) acc.1
    (res.1, acc.2 ++ res.2.map (fun e => (st.1, e.1, e.2)))
  else acc

/-- Modelled from the spec: `run_steps(names)` — for each step **in the
order steps were added**, restricted to the requested set, execute it for
each Sample in the Workflow's Project; returns the final Project and the
trace of (step name, sample id, result) in execution order. -/
def Workflow.runSteps (w : Workflow) (names : List String)
    (env : String → String → ProcOutcome × RunTimes) :
    Project × List (String × String × StepResult) :=
  w.steps.foldl (runStepsF names env) (w.proj, [])

/-! ### Concrete fixtures (used to instantiate theorems on closed inputs) -/

/-- A concrete assembly File, as in the tutorials. -/
def wFile : File :=
  { path := { dir := "data", base := "genome.fasta" }, tag := some "assembly"
    kind := .plain }

/-- A concrete Sample owning the assembly File. -/
def wSample : Sample :=
  { identifier := "Syn"
    attributes := [("ncbi_accession", "GCF_000010065.1")]
    files := [("assembly", wFile)]
    programs := [] }

/-- A Sample with no files at all (its required input tag is missing). -/
def wBadSample : Sample :=
  { identifier := "Bad", attributes := [], files := [], programs := [] }

/-- A concrete PresetProgram in the shape of the tutorial's blastn preset. -/
def wPreset : PresetProgram :=
  { name := "blastn"
    params := [{ key := "-db", value := some "megares" },
               { key := "-outfmt", value := some "6" }]
    inputFiles := [("-query", "assembly")]
    outputFiles := [("-out", ("megares_hits", "_megares_hits.txt"))]
    extraFlags := ["-v"] }

/-- The result of resolving the concrete preset against the concrete
Sample (extracted from the successful resolution). -/
def wRes : Sample × Program :=
  (wPreset.resolve wSample).toOption.getD
    (wSample, { name := "", params := [], runs := [] })

/-- A second preset in the shape of the tutorial's awk filter step. -/
def wPresetAwk : PresetProgram :=
  { name := "awk"
    params := []
    inputFiles := [("'$12>=1000'", "megares_hits")]
    outputFiles := [(">", ("high_score", "_high_score_hits.txt"))]
    extraFlags := [] }

/-- A concrete Project with one well-formed Sample and one Sample missing
the required input tag. -/
def wProject : Project :=
  { tag := "introduction"
    attributes := []
    samples := [("Syn", wSample), ("Bad", wBadSample)] }

/-- A concrete Workflow with the two presets added in order
blastn, awk. -/
def wWorkflow : Workflow :=
  { steps := [("blastn", { preset := wPreset, enabledByDefault := true }),
              ("awk", { preset := wPresetAwk, enabledByDefault := true })]
    proj := wProject }

/-- A concrete environment: the process for the bad sample exits 1,
everything else exits 0. -/
def wEnv (sid : String) : ProcOutcome × RunTimes :=
  if sid = "Bad" then (.completed 1 "" "oops", { start := "t0", finish := "t1" })
  else (.completed 0 "hits" "", { start := "t0", finish := "t1" })

/-- A concrete Program with two Parameters and no Runs. -/
def wGrep : Program :=
  { name := "grep"
    params := [{ key := "-c", value := none }, { key := "GATTACA", value := some "in.fa" }]
    runs := [] }

/-- Two concrete engine invocations: one success, one failure. -/
def wOcs : List (ProcOutcome × RunTimes) :=
  [(.completed 0 "7" "", { start := "a", finish := "b" }),
   (.completed 2 "" "err", { start := "c", finish := "d" })]

/-! ### Theorems -/

theorem lookupA_updateA_self {α : Type} (l : List (String × α)) (k : String) (v : α) :
    lookupA (updateA l k v) k = some v := by
  induction l with
  | nil => simp [updateA, lookupA]
  | cons hd tl ih =>
      obtain ⟨k', v'⟩ := hd
      by_cases h : k' = k
      · simp [updateA, h, lookupA]
      · simp [updateA, h, lookupA, ih]

theorem lookupA_updateA_ne {α : Type} (l : List (String × α)) (k t : String) (v : α)
    (h : t ≠ k) : lookupA (updateA l k v) t = lookupA l t := by
  induction l with
  | nil => simp [updateA, lookupA, Ne.symm h]
  | cons hd tl ih =>
      obtain ⟨k', v'⟩ := hd
      by_cases hk : k' = k
      · subst hk
        simp [updateA, lookupA, Ne.symm h]
      · simp [updateA, hk, lookupA, ih]

theorem keys_updateA {α : Type} (l : List (String × α)) (k : String) (v : α) :
    (updateA l k v).map Prod.fst =
      if (l.map Prod.fst).contains k then l.map Prod.fst
      else l.map Prod.fst ++ [k] := by
  induction l with
  | nil => simp [updateA]
  | cons hd tl ih =>
      obtain ⟨k', v'⟩ := hd
      by_cases h : k' = k
      · simp [updateA, h, List.contains_cons]
      · have hbeq : (k == k') = false := by simp [Ne.symm h]
        simp only [updateA, if_neg h, List.map, ih, List.contains_cons, hbeq,
          Bool.false_or]
        by_cases hc : (List.map Prod.fst tl).contains k = true
        · rw [if_pos hc, if_pos hc]
        · rw [if_neg hc, if_neg hc, List.cons_append]

theorem joinSp_shift (acc r : String) (l : List String) :
    joinSp ((acc ++ " " ++ r) :: l) = acc ++ " " ++ joinSp (r :: l) := by
  cases l with
  | nil => simp [joinSp]
  | cons y rest => simp [joinSp, String.append_assoc]

theorem genCmd_eq_joinSp (acc : String) (ps : List Parameter) :
    genCmd acc ps = joinSp (acc :: ps.map Parameter.render) := by
  induction ps generalizing acc with
  | nil => simp [genCmd, joinSp]
  | cons p ps ih =>
      simp only [genCmd, List.map, ih, joinSp_shift]
      simp [joinSp]

theorem runOn_ok_runs (p : Program) (oc : ProcOutcome) (ts : RunTimes)
    (h : oc.isFault = false) :
    ∃ r, p.runOn oc ts = .ok ({ p with runs := p.runs ++ [(toString (p.runs.length + 1), r)] }, r) := by
  cases oc with
  | completed e out err => exact ⟨_, rfl⟩
  | timedOut out err => exact ⟨_, rfl⟩
  | spawnFault m => simp [ProcOutcome.isFault] at h

/-- Run ids allocated by `runMany`: the keys extend the existing ones by
the contiguous block starting at `len + 1`. -/
theorem runMany_keys (ocs : List (ProcOutcome × RunTimes))
    (h : ∀ x ∈ ocs, ProcOutcome.isFault x.1 = false) (p : Program) :
    (p.runMany ocs).runs.map Prod.fst =
      p.runs.map Prod.fst ++
        (List.range' (p.runs.length + 1) ocs.length).map toString := by
  induction ocs generalizing p with
  | nil => simp [Program.runMany]
  | cons x rest ih =>
      obtain ⟨oc, ts⟩ := x
      have hx : oc.isFault = false := h (oc, ts) (by simp)
      obtain ⟨r, hr⟩ := runOn_ok_runs p oc ts hx
      have hrest : ∀ y ∈ rest, ProcOutcome.isFault y.1 = false := by
        intro y hy; exact h y (by simp [hy])
      simp only [Program.runMany, hr]
      rw [ih hrest]
      simp [List.range'_succ]

/-- The runs recorded so far are never disturbed by later invocations:
`runMany` only appends. -/
theorem runMany_extends (ocs : List (ProcOutcome × RunTimes)) (p : Program) :
    ∃ rest, (p.runMany ocs).runs = p.runs ++ rest := by
  induction ocs generalizing p with
  | nil => exact ⟨[], by simp [Program.runMany]⟩
  | cons x rest ih =>
      obtain ⟨oc, ts⟩ := x
      cases hoc : p.runOn oc ts with
      | error e => simpa [Program.runMany, hoc] using ih p
      | ok pr =>
          obtain ⟨p', r⟩ := pr
          obtain ⟨tail, htail⟩ := ih p'
          have hruns : p'.runs = p.runs ++ [(toString (p.runs.length + 1), r)] := by
            cases oc with
            | completed e out err =>
                simp [Program.runOn] at hoc
                rw [← hoc.1, ← hoc.2]
            | timedOut out err =>
                simp [Program.runOn] at hoc
                rw [← hoc.1, ← hoc.2]
            | spawnFault m => simp [Program.runOn] at hoc
          refine ⟨(toString (p.runs.length + 1), r) :: tail, ?_⟩
          simp [Program.runMany, hoc, htail, hruns]

/-! Helper facts about resolution. -/

theorem resolveInputs_error_of_missing (inputs : List (String × String))
    (files : List (String × File))
    (h : ∃ b ∈ inputs, lookupA files b.2 = none) :
    ∃ t, resolveInputs inputs files = .error (.missingInput t) ∧
      lookupA files t = none := by
  induction inputs with
  | nil => simp at h
  | cons b rest ih =>
      obtain ⟨fl, t⟩ := b
      cases hf : lookupA files t with
      | none => exact ⟨t, by simp [resolveInputs, hf], hf⟩
      | some f =>
          obtain ⟨b', hb', hmiss⟩ := h
          rcases List.mem_cons.mp hb' with hb' | hb'
          · rw [hb'] at hmiss
            simp only at hmiss
            rw [hmiss] at hf
            cases hf
          · obtain ⟨t', hres, hl⟩ := ih ⟨b', hb', hmiss⟩
            refine ⟨t', ?_, hl⟩
            simp [resolveInputs, hf, hres]

/-- Success of `resolveInputs` pairs each binding's flag with the file
found under its tag. -/
theorem resolveInputs_ok_forall (inputs : List (String × String))
    (files : List (String × File)) (resolved : List (String × File))
    (h : resolveInputs inputs files = .ok resolved) :
    List.Forall₂ (fun b rb => rb.1 = b.1 ∧ lookupA files b.2 = some rb.2)
      inputs resolved := by
  induction inputs generalizing resolved with
  | nil =>
      simp [resolveInputs] at h
      rw [h]
      exact List.Forall₂.nil
  | cons b rest ih =>
      obtain ⟨fl, t⟩ := b
      cases hf : lookupA files t with
      | none => simp [resolveInputs, hf] at h
      | some f =>
          cases hres : resolveInputs rest files with
          | error e => simp [resolveInputs, hf, hres] at h
          | ok rs =>
              simp [resolveInputs, hf, hres] at h
              rw [← h]
              exact List.Forall₂.cons ⟨rfl, hf⟩ (ih rs hres)

theorem lookupA_foldl_updateA (outs : List (String × String × File))
    (fs : List (String × File)) (t : String) :
    lookupA (outs.foldl (fun fs b => updateA fs b.2.1 b.2.2) fs) t =
      match lastWriteF outs t with
      | some f => some f
      | none => lookupA fs t := by
  induction outs generalizing fs with
  | nil => simp [lastWriteF]
  | cons b rest ih =>
      simp only [List.foldl_cons, ih, lastWriteF]
      cases hlw : lastWriteF rest t with
      | some f => simp
      | none =>
          by_cases hb : b.2.1 = t
          · subst hb
            simp [lookupA_updateA_self]
          · simp [hb, lookupA_updateA_ne _ _ _ _ (Ne.symm hb)]

theorem lastWriteF_map_outFile (outs : List (String × String × String))
    (d ident t : String) :
    lastWriteF (outs.map (fun b => (b.1, b.2.1, outFile d ident b.2.1 b.2.2))) t =
      (lastOut outs t).map (fun r => outFile d ident t r.2) := by
  induction outs with
  | nil => simp [lastWriteF, lastOut]
  | cons b rest ih =>
      simp only [List.map_cons, lastWriteF, lastOut, ih]
      cases hlo : lastOut rest t with
      | some r => simp
      | none =>
          by_cases hb : b.2.1 = t
          · subst hb
            simp
          · simp [hb]

/-- Inversion of a successful preset resolution: the resolved inputs, the
mutated sample and the materialized program, explicitly. -/
theorem resolve_ok_inv (pp : PresetProgram) (s : Sample) (s' : Sample) (prog : Program)
    (h : pp.resolve s = .ok (s', prog)) :
    ∃ resolved, resolveInputs pp.inputFiles s.files = .ok resolved ∧
      prog =
        { name := pp.name
          params := pp.params
            ++ resolved.map (fun b => { key := b.1, value := some b.2.path.render })
            ++ (pp.outputFiles.map (fun b =>
                  (b.1, b.2.1, outFile (firstInputDir resolved) s.identifier b.2.1 b.2.2))).map
                (fun b => { key := b.1, value := some b.2.2.path.render })
            ++ pp.extraFlags.map (fun fl => { key := fl, value := none })
          runs := prevRuns s pp.name } ∧
      s' =
        { s with
            files := (pp.outputFiles.map (fun b =>
                  (b.1, b.2.1, outFile (firstInputDir resolved) s.identifier b.2.1 b.2.2))).foldl
                (fun fs b => updateA fs b.2.1 b.2.2) s.files
            programs := updateA s.programs prog.name prog } := by
  cases hres : resolveInputs pp.inputFiles s.files with
  | error e => simp [PresetProgram.resolve, hres] at h
  | ok resolved =>
      refine ⟨resolved, rfl, ?_⟩
      simp only [PresetProgram.resolve, hres, Except.ok.injEq, Prod.mk.injEq] at h
      obtain ⟨hs', hprog⟩ := h
      constructor
      · rw [← hprog]
      · rw [← hs', ← hprog]

/-- If some binding targets tag `t`, the last output binding for `t`
exists. -/
theorem lastOut_isSome_of_mem (outs : List (String × String × String))
    (b : String × String × String) (hb : b ∈ outs) :
    ∃ r, lastOut outs b.2.1 = some r := by
  induction outs with
  | nil => simp at hb
  | cons c rest ih =>
      rcases List.mem_cons.mp hb with hb' | hb'
      · subst hb'
        cases hlo : lastOut rest b.2.1 with
        | some r => exact ⟨r, by simp [lastOut, hlo]⟩
        | none => exact ⟨(b.1, b.2.2), by simp [lastOut, hlo]⟩
      · obtain ⟨r, hr⟩ := ih hb'
        exact ⟨r, by simp [lastOut, hr]⟩

/-- After a successful resolution, the files of the sample the step leaves
behind are exactly the resolved sample's files: the subsequent execution
touches only the program mapping. -/
theorem stepOnSample_files_of_resolve_ok (pp : PresetProgram) (oc : ProcOutcome)
    (ts : RunTimes) (s s' : Sample) (prog : Program)
    (h : pp.resolve s = .ok (s', prog)) :
    ((stepOnSample pp oc ts s).1).files = s'.files := by
  cases hrun : prog.runOn oc ts with
  | error e => simp [stepOnSample, h, hrun]
  | ok pr => simp [stepOnSample, h, hrun, Sample.addPrograms]

theorem deRun_serRun (r : Run) : deRun (serRun r) = r := by
  cases r with
  | mk start finish status stdout stderr => cases status <;> rfl

theorem deParam_serParam (p : Parameter) : deParam (serParam p) = p := rfl

theorem deFile_serFile (t : String) (f : File) (h : f.tag = some t) :
    deFile t (serFile f) = .ok f := by
  cases f with
  | mk path tag kind =>
      simp only at h
      subst h
      cases kind <;> rfl

theorem deProgram_serProgram (p : Program) : deProgram (serProgram p) = p := by
  cases p with
  | mk name params runs =>
      simp [deProgram, serProgram, List.map_map, Function.comp_def, deRun_serRun,
        deParam_serParam]

theorem travA_ok {β γ : Type} (f : String → β → Except SerError γ) (g : γ → β)
    (l : List (String × γ)) (h : ∀ e ∈ l, f e.1 (g e.2) = .ok e.2) :
    travA f (l.map (fun e => (e.1, g e.2))) = .ok l := by
  induction l with
  | nil => rfl
  | cons e rest ih =>
      obtain ⟨k, c⟩ := e
      have hk : f k (g c) = .ok c := h (k, c) (by simp)
      have hrest : ∀ e ∈ rest, f e.1 (g e.2) = .ok e.2 := by
        intro e he; exact h e (by simp [he])
      simp only [List.map_cons, travA, hk, ih hrest]

theorem deSample_serSample (ident : String) (s : Sample)
    (hid : s.identifier = ident) (hf : Sample.filesWF s) :
    deSample ident (serSample s) = .ok s := by
  have hfiles : travA deFile (s.files.map (fun e => (e.1, serFile e.2))) = .ok s.files := by
    refine travA_ok deFile serFile s.files ?_
    intro e he
    exact deFile_serFile e.1 e.2 (hf e he)
  cases s with
  | mk ident' attributes files programs =>
      simp only at hid hfiles
      subst hid
      simp [deSample, serSample, hfiles, List.map_map, Function.comp_def,
        deProgram_serProgram]

/-- Serialization keeps the sample keys, so key-based validation sees the
original identifiers. -/
theorem serProject_keys (p : Project) :
    ((serProject p).samples.map Prod.fst) = p.samples.map Prod.fst := by
  simp [serProject, List.map_map, Function.comp_def]

theorem deProject_serProject (p : Project) (h : p.WF) :
    deProject (serProject p) = .ok p := by
  obtain ⟨hdup, hwf⟩ := h
  have hsamples : travA deSample (p.samples.map (fun e => (e.1, serSample e.2))) = .ok p.samples := by
    refine travA_ok deSample serSample p.samples ?_
    intro e he
    exact deSample_serSample e.1 e.2 (hwf e he).1 (hwf e he).2
  cases p with
  | mk tag attributes samples =>
      simp only [serProject] at hsamples ⊢
      have hkeys : ((samples.map (fun e => (e.1, serSample e.2))).map Prod.fst) =
          samples.map Prod.fst := by
        simp [List.map_map, Function.comp_def]
      simp only [deProject, hkeys]
      rw [hdup]
      simp [hsamples]

theorem runStepProject_sample_keys (pp : PresetProgram)
    (env : String → ProcOutcome × RunTimes) (proj : Project) :
    (runStepProject pp env proj).1.samples.map Prod.fst = proj.samples.map Prod.fst := by
  simp [runStepProject, List.map_map, Function.comp_def]

theorem runStepProject_trace_keys (pp : PresetProgram)
    (env : String → ProcOutcome × RunTimes) (proj : Project) :
    (runStepProject pp env proj).2.map Prod.fst = proj.samples.map Prod.fst := by
  simp [runStepProject, List.map_map, Function.comp_def]

/-- The execution trace of the `run_steps` fold: the requested steps in
definition order, each over the Project's samples in insertion order. -/
theorem runSteps_go (names : List String)
    (env : String → String → ProcOutcome × RunTimes)
    (steps : List (String × Step)) (proj : Project)
    (trace : List (String × String × StepResult)) :
    (steps.foldl (runStepsF names env) (proj, trace)).2.map (fun e => (e.1, e.2.1)) =
      trace.map (fun e => (e.1, e.2.1)) ++
        ((steps.map Prod.fst).filter (fun nm => names.contains nm)).flatMap
          (fun nm => (proj.samples.map Prod.fst).map (fun sid => (nm, sid))) := by
  induction steps generalizing proj trace with
  | nil => simp
  | cons st rest ih =>
      by_cases hc : names.contains st.1
      · have hkeys := runStepProject_sample_keys st.2.preset (env st.1) proj
        simp only [List.foldl_cons, runStepsF, hc, if_pos, List.map_cons,
          List.filter_cons, List.flatMap_cons]
        rw [ih]
        rw [hkeys]
        simp [runStepProject, List.map_map, Function.comp_def, hc]
      · simp only [List.foldl_cons, runStepsF, hc, if_neg, List.map_cons,
          List.filter_cons]
        rw [ih]
        simp [hc]

/-- After a successful resolution, the tag of every output binding maps to
the freshly registered File: directory from the first resolved input (or
the sample-local default), base name = sample identifier ++ suffix of the
last binding declaring that tag. -/
theorem resolve_ok_output_lookup (pp : PresetProgram) (s s' : Sample) (prog : Program)
    (t fl suf : String) (h : pp.resolve s = .ok (s', prog))
    (hlast : lastOut pp.outputFiles t = some (fl, suf)) :
    ∃ d, lookupA s'.files t =
      some { path := { dir := d, base := s.identifier ++ suf }
             tag := some t, kind := .plain } := by
  obtain ⟨resolved, hres, hprog, hs'⟩ := resolve_ok_inv pp s s' prog h
  refine ⟨firstInputDir resolved, ?_⟩
  rw [hs']
  simp only
  rw [lookupA_foldl_updateA, lastWriteF_map_outFile, hlast]
  simp [outFile]

/-- C1: after `n` invocations of the Execution Engine's run on a Program
whose run mapping started empty — every invocation actually spawning,
whether the process then succeeded, failed or timed out — the keys of the
Program's run mapping are exactly the strings "1", "2", …, "n", allocated
in invocation order with no gaps or reordering; and any further
invocations only append, leaving the existing Runs (in particular Run "1")
in place, so a re-run adds a Run under the next key rather than replacing
an earlier one. -/
theorem run_ids_contiguous (p : Program) (ocs more : List (ProcOutcome × RunTimes))
    (hp : p.runs = []) (h : ∀ x ∈ ocs, ProcOutcome.isFault x.1 = false) :
    (p.runMany ocs).runs.map Prod.fst = (List.range' 1 ocs.length).map toString ∧
      ∃ rest, ((p.runMany ocs).runMany more).runs = (p.runMany ocs).runs ++ rest := by
  constructor
  · rw [runMany_keys ocs h p, hp]
    simp
  · exact runMany_extends more (p.runMany ocs)

theorem run_ids_contiguous_witness :
    wGrep.runs = [] ∧
      (∀ x ∈ wOcs, ProcOutcome.isFault x.1 = false) ∧
      ((wGrep.runMany wOcs).runs.map Prod.fst = (List.range' 1 wOcs.length).map toString ∧
        ∃ rest, ((wGrep.runMany wOcs).runMany []).runs = (wGrep.runMany wOcs).runs ++ rest) :=
  ⟨rfl, by decide, run_ids_contiguous wGrep wOcs [] rfl (by decide)⟩

/-- C2: the built command string equals the Program's name followed by each
Parameter's rendering, space-joined, in append order; a key-only Parameter
renders to its key and a key/value Parameter to `key value`, both tokens
verbatim with no quoting added; and the command is a pure function of the
Program's name and ordered Parameters alone, so re-building without
mutating them (whatever Runs have accumulated) returns an identical
string. -/
theorem cmd_builder_spec (p q : Program) (hn : p.name = q.name) (hp : p.params = q.params) :
    p.cmd = joinSp (p.name :: p.params.map Parameter.render) ∧
      (∀ k : String, Parameter.render { key := k, value := none } = k) ∧
      (∀ k v : String, Parameter.render { key := k, value := some v } = k ++ " " ++ v) ∧
      p.cmd = q.cmd := by
  refine ⟨genCmd_eq_joinSp p.name p.params, fun k => rfl, fun k v => rfl, ?_⟩
  simp [Program.cmd, hn, hp]

theorem cmd_builder_spec_witness :
    wGrep.name = (wGrep.runMany wOcs).name ∧
      wGrep.params = (wGrep.runMany wOcs).params ∧
      (wGrep.cmd = joinSp (wGrep.name :: wGrep.params.map Parameter.render) ∧
        (∀ k : String, Parameter.render { key := k, value := none } = k) ∧
        (∀ k v : String, Parameter.render { key := k, value := some v } = k ++ " " ++ v) ∧
        wGrep.cmd = (wGrep.runMany wOcs).cmd) :=
  ⟨rfl, rfl, cmd_builder_spec wGrep (wGrep.runMany wOcs) rfl rfl⟩

/-- C3: when the external process can be spawned (no engine-level fault),
run does not raise: it returns a Run recorded under the next id of the
Program's run mapping, carrying the captured stdout and stderr, whose
status is a failure exactly when the process exited non-zero or timed out;
an error surfaces to the caller precisely for engine-level faults, which
record nothing. -/
theorem run_failure_recorded_not_raised (p : Program) (oc : ProcOutcome) (ts : RunTimes)
    (h : oc.isFault = false) :
    (∃ r, p.runOn oc ts =
        .ok ({ p with runs := p.runs ++ [(toString (p.runs.length + 1), r)] }, r) ∧
        r.stdout = oc.outOf ∧ r.stderr = oc.errOf ∧
        r.status.isFailure = oc.isFailing) ∧
      ∀ m, p.runOn (.spawnFault m) ts = .error (.spawnFault m) := by
  constructor
  · cases oc with
    | completed e out err => exact ⟨_, rfl, rfl, rfl, rfl⟩
    | timedOut out err => exact ⟨_, rfl, rfl, rfl, rfl⟩
    | spawnFault m => simp [ProcOutcome.isFault] at h
  · intro m
    rfl

theorem run_failure_recorded_not_raised_witness :
    (ProcOutcome.completed 2 "out" "err").isFault = false ∧
      ((∃ r, wGrep.runOn (.completed 2 "out" "err") { start := "a", finish := "b" } =
          .ok ({ wGrep with
                  runs := wGrep.runs ++ [(toString (wGrep.runs.length + 1), r)] }, r) ∧
          r.stdout = (ProcOutcome.completed 2 "out" "err").outOf ∧
          r.stderr = (ProcOutcome.completed 2 "out" "err").errOf ∧
          r.status.isFailure = (ProcOutcome.completed 2 "out" "err").isFailing) ∧
        ∀ m, wGrep.runOn (.spawnFault m) { start := "a", finish := "b" } =
          .error (.spawnFault m)) :=
  ⟨rfl, run_failure_recorded_not_raised wGrep (.completed 2 "out" "err")
    { start := "a", finish := "b" } rfl⟩

/-- C10: directly assigning a File constructed without a tag into the files
mapping under tag `t` leaves the Sample in the same state as `add_files`
with a File carrying tag `t`: the two insertion routes yield equal Samples,
and the stored File carries tag `t` and the given path. -/
theorem assign_file_eq_add_files (s : Sample) (t : String) (p : FPath) (k : FileKind) :
    s.assignFile t { path := p, tag := none, kind := k } =
        s.addFiles { path := p, tag := some t, kind := k } ∧
      lookupA (s.assignFile t { path := p, tag := none, kind := k }).files t =
        some { path := p, tag := some t, kind := k } := by
  constructor
  · rfl
  · simp only [Sample.assignFile]
    exact lookupA_updateA_self s.files t _

/-- C4: `run_steps` executes steps in the order they were added to the
Workflow, filtered to the requested subset — not in the order requested:
the execution trace is exactly the added step names that were requested,
in addition order, each over every sample in project order; and two
requests naming the same set of steps produce identical results, so the
requested order is immaterial. -/
theorem run_steps_definition_order (w : Workflow) (names names' : List String)
    (env : String → String → ProcOutcome × RunTimes)
    (h : ∀ nm, names.contains nm = names'.contains nm) :
    ((w.runSteps names env).2.map (fun e => (e.1, e.2.1)) =
        ((w.steps.map Prod.fst).filter (fun nm => names.contains nm)).flatMap
          (fun nm => (w.proj.samples.map Prod.fst).map (fun sid => (nm, sid)))) ∧
      w.runSteps names env = w.runSteps names' env := by
  constructor
  · have hgo := runSteps_go names env w.steps w.proj []
    simpa [Workflow.runSteps] using hgo
  · have hf : runStepsF names env = runStepsF names' env := by
      funext acc st
      unfold runStepsF
      rw [h st.1]
    simp [Workflow.runSteps, hf]

theorem run_steps_definition_order_witness :
    (∀ nm : String, (["awk", "blastn"].contains nm) = (["blastn", "awk"].contains nm)) ∧
      (((wWorkflow.runSteps ["awk", "blastn"] (fun _ => wEnv)).2.map
            (fun e => (e.1, e.2.1)) =
          ((wWorkflow.steps.map Prod.fst).filter
              (fun nm => (["awk", "blastn"].contains nm))).flatMap
            (fun nm => (wWorkflow.proj.samples.map Prod.fst).map (fun sid => (nm, sid)))) ∧
        wWorkflow.runSteps ["awk", "blastn"] (fun _ => wEnv) =
          wWorkflow.runSteps ["blastn", "awk"] (fun _ => wEnv)) :=
  ⟨fun nm => by simp [List.contains_cons, Bool.or_comm],
    run_steps_definition_order wWorkflow ["awk", "blastn"] ["blastn", "awk"]
      (fun _ => wEnv) (fun nm => by simp [List.contains_cons, Bool.or_comm])⟩

/-- C5: resolving a PresetProgram against a Sample that lacks a File under
some declared required input tag fails with a "missing input" error naming
an absent tag, before any external process is consulted, and the step
leaves the Sample exactly as it was: no Program attached, no Run created,
no new File registered. -/
theorem resolve_missing_input_fails_cleanly (pp : PresetProgram) (s : Sample)
    (oc : ProcOutcome) (ts : RunTimes)
    (h : ∃ b ∈ pp.inputFiles, lookupA s.files b.2 = none) :
    ∃ t, lookupA s.files t = none ∧
      pp.resolve s = .error (.missingInput t) ∧
      stepOnSample pp oc ts s = (s, .resolveFailed (.missingInput t)) := by
  obtain ⟨t, hres, hl⟩ := resolveInputs_error_of_missing pp.inputFiles s.files h
  refine ⟨t, hl, ?_, ?_⟩
  · simp [PresetProgram.resolve, hres]
  · simp [stepOnSample, PresetProgram.resolve, hres]

theorem resolve_missing_input_fails_cleanly_witness :
    (∃ b ∈ wPreset.inputFiles, lookupA wBadSample.files b.2 = none) ∧
      ∃ t, lookupA wBadSample.files t = none ∧
        wPreset.resolve wBadSample = .error (.missingInput t) ∧
        stepOnSample wPreset (.completed 0 "" "") { start := "a", finish := "b" }
            wBadSample =
          (wBadSample, .resolveFailed (.missingInput t)) :=
  ⟨by decide,
    resolve_missing_input_fails_cleanly wPreset wBadSample (.completed 0 "" "")
      { start := "a", finish := "b" } (by decide)⟩

/-- C6: a successful resolution registers, under each declared output tag,
a new File whose path's base name is the sample identifier concatenated
with the binding's suffix (directory taken from the first resolved input
file or the sample-local default), overwriting whatever File was stored
under that tag before — with the last binding winning when several declare
the same tag. -/
theorem resolve_registers_output_files (pp : PresetProgram) (s s' : Sample)
    (prog : Program) (t fl suf : String) (h : pp.resolve s = .ok (s', prog))
    (hlast : lastOut pp.outputFiles t = some (fl, suf)) :
    ∃ d, lookupA s'.files t =
      some { path := { dir := d, base := s.identifier ++ suf }
             tag := some t, kind := .plain } :=
  resolve_ok_output_lookup pp s s' prog t fl suf h hlast

theorem resolve_registers_output_files_witness :
    wPreset.resolve wSample = .ok (wRes.1, wRes.2) ∧
      lastOut wPreset.outputFiles "megares_hits" = some ("-out", "_megares_hits.txt") ∧
      ∃ d, lookupA wRes.1.files "megares_hits" =
        some { path := { dir := d, base := wSample.identifier ++ "_megares_hits.txt" }
               tag := some "megares_hits", kind := .plain } :=
  ⟨rfl, rfl,
    resolve_registers_output_files wPreset wSample wRes.1 wRes.2 "megares_hits"
      "-out" "_megares_hits.txt" rfl rfl⟩

/-- C7: deserializing a previously serialized project document reconstructs
the Project itself — samples, files, programs, parameters and run records
field for field, timestamps verbatim — so re-serializing any reconstruction
produces the identical document. -/
theorem serialization_round_trip (p : Project) (h : p.WF) :
    deProject (serProject p) = .ok p ∧
      ∀ p', deProject (serProject p) = .ok p' → serProject p' = serProject p := by
  refine ⟨deProject_serProject p h, ?_⟩
  intro p' hp'
  rw [deProject_serProject p h] at hp'
  injection hp' with hh
  rw [hh]

theorem serialization_round_trip_witness :
    wProject.WF ∧
      (deProject (serProject wProject) = .ok wProject ∧
        ∀ p', deProject (serProject wProject) = .ok p' →
          serProject p' = serProject wProject) :=
  ⟨by decide, serialization_round_trip wProject (by decide)⟩

/-- C8: the Parameters of the Program materialized by a successful
resolution appear in exactly this order: the fixed parameters in
construction order, then one Parameter (flag, resolved input file path)
per input binding in declaration order, then one Parameter (flag, new
output file path) per output binding, then each extra flag as a bare
key-only Parameter at the end. -/
theorem resolve_parameter_order (pp : PresetProgram) (s s' : Sample) (prog : Program)
    (h : pp.resolve s = .ok (s', prog)) :
    ∃ resolved,
      resolveInputs pp.inputFiles s.files = .ok resolved ∧
      List.Forall₂ (fun b rb => rb.1 = b.1 ∧ lookupA s.files b.2 = some rb.2)
        pp.inputFiles resolved ∧
      prog.params =
        pp.params
          ++ resolved.map (fun b => { key := b.1, value := some b.2.path.render })
          ++ pp.outputFiles.map (fun b =>
               { key := b.1
                 value := some (outFile (firstInputDir resolved) s.identifier
                   b.2.1 b.2.2).path.render })
          ++ pp.extraFlags.map (fun fl => { key := fl, value := none }) := by
  obtain ⟨resolved, hres, hprog, hs'⟩ := resolve_ok_inv pp s s' prog h
  refine ⟨resolved, hres, resolveInputs_ok_forall _ _ _ hres, ?_⟩
  rw [hprog]
  simp [List.map_map, Function.comp_def]

theorem resolve_parameter_order_witness :
    wPreset.resolve wSample = .ok (wRes.1, wRes.2) ∧
      ∃ resolved,
        resolveInputs wPreset.inputFiles wSample.files = .ok resolved ∧
        List.Forall₂ (fun b rb => rb.1 = b.1 ∧ lookupA wSample.files b.2 = some rb.2)
          wPreset.inputFiles resolved ∧
        wRes.2.params =
          wPreset.params
            ++ resolved.map (fun b => { key := b.1, value := some b.2.path.render })
            ++ wPreset.outputFiles.map (fun b =>
                 { key := b.1
                   value := some (outFile (firstInputDir resolved) wSample.identifier
                     b.2.1 b.2.2).path.render })
            ++ wPreset.extraFlags.map (fun fl => { key := fl, value := none }) :=
  ⟨rfl, resolve_parameter_order wPreset wSample wRes.1 wRes.2 rfl⟩

/-- C9: a step runs over a Project's samples independently: the resulting
Project carries, for every sample, exactly that sample's own updated state,
and the trace carries exactly that sample's own result — so one sample's
resolution error or failing Run cannot halt or alter the processing of the
others — and every sample whose resolution succeeds gains a File under
every declared output tag. -/
theorem workflow_partial_failure_tolerance (pp : PresetProgram)
    (env : String → ProcOutcome × RunTimes) (proj : Project) :
    ((runStepProject pp env proj).1.samples =
        proj.samples.map
          (fun e => (e.1, (stepOnSample pp (env e.1).1 (env e.1).2 e.2).1))) ∧
      ((runStepProject pp env proj).2 =
        proj.samples.map
          (fun e => (e.1, (stepOnSample pp (env e.1).1 (env e.1).2 e.2).2))) ∧
      (∀ e ∈ proj.samples, ∀ s' prog, pp.resolve e.2 = .ok (s', prog) →
        ∀ b ∈ pp.outputFiles,
          ∃ f, lookupA ((stepOnSample pp (env e.1).1 (env e.1).2 e.2).1).files b.2.1 =
              some f ∧ f.tag = some b.2.1) := by
  refine ⟨rfl, rfl, ?_⟩
  intro e he s' prog hres b hb
  obtain ⟨r, hlast⟩ := lastOut_isSome_of_mem pp.outputFiles b hb
  obtain ⟨d, hl⟩ := resolve_ok_output_lookup pp e.2 s' prog b.2.1 r.1 r.2 hres
    (by rw [hlast])
  rw [stepOnSample_files_of_resolve_ok pp (env e.1).1 (env e.1).2 e.2 s' prog hres]
  exact ⟨_, hl, rfl⟩

theorem workflow_partial_failure_tolerance_witness :
    ("Syn", wSample) ∈ wProject.samples ∧
      wPreset.resolve wSample = .ok (wRes.1, wRes.2) ∧
      ("-out", ("megares_hits", "_megares_hits.txt")) ∈ wPreset.outputFiles ∧
      ∃ f, lookupA ((stepOnSample wPreset (wEnv "Syn").1 (wEnv "Syn").2 wSample).1).files
          "megares_hits" = some f ∧ f.tag = some "megares_hits" :=
  ⟨by decide, rfl, by decide,
    (workflow_partial_failure_tolerance wPreset wEnv wProject).2.2
      ("Syn", wSample) (by decide) wRes.1 wRes.2 rfl
      ("-out", ("megares_hits", "_megares_hits.txt")) (by decide)⟩

end BioProv
